import Mathlib

/-!
Verification of the measurement and persistence engine of the
`ping-the-internet` repository: the ping-outcome codec, the /16 file codec,
the interleaved prober ordering and aggregation, the sweep planner's
skip logic, the retry loop, the stats reducer and the subnet address
iterator.  Every definition is a shallow embedding of the corresponding
Rust function; byte streams are `List Nat` with each element a byte value,
machine integers are `Nat` with explicit `% 2 ^ w` where wrapping matters.
-/

/-- Ping outcome (enum `PingResult`, src/ping-worker/src/ping.rs).  The
source stores a `Duration`; it is produced and consumed at millisecond
granularity (`as_millis` / `from_millis`), so the RTT is modelled as a
number of milliseconds. -/
inductive PingResult where
  | Success (rtt_ms : Nat)
  | Timeout
  | Error
deriving DecidableEq, Repr

/-- Little-endian two-byte rendering of `t as u16` followed by
`to_le_bytes` (the cast `as u16` in Rust truncates to the low 16 bits). -/
def u16_le_bytes (t : Nat) : List Nat :=
  [t % 65536 % 256, t % 65536 / 256]

/-- Byte encoding of one outcome (`PingResult::serialize_into`):
tag `0x00` plus two-byte little-endian RTT for `Success`, tag `0x01`
for `Timeout`, tag `0x02` for `Error`. -/
def PingResult.serialize_into : PingResult → List Nat
  | .Success t => 0x00 :: u16_le_bytes t
  | .Timeout => [0x01]
  | .Error => [0x02]

/-- Byte decoding of one outcome (`PingResult::parse_from_bytes`): the tag
byte selects the variant; `0x00` additionally takes two bytes interpreted
as a little-endian u16.  Unknown tags or truncated input fail. -/
def PingResult.parse_from_bytes : List Nat → Option (List Nat × PingResult)
  | 0x00 :: rest =>
    match rest with
    | b0 :: b1 :: rest2 => some (rest2, .Success (b0 + 256 * b1))
    | _ => none
  | 0x01 :: rest => some (rest, .Timeout)
  | 0x02 :: rest => some (rest, .Error)
  | _ => none

theorem parse_serialize_ping (o : PingResult)
    (h : ∀ t, o = PingResult.Success t → t < 65536) (rest : List Nat) :
    PingResult.parse_from_bytes (o.serialize_into ++ rest) = some (rest, o) := by
  cases o with
  | Success t =>
    have ht : t < 65536 := h t rfl
    have hmod : t % 65536 = t := Nat.mod_eq_of_lt ht
    simp only [PingResult.serialize_into, u16_le_bytes, hmod]
    show PingResult.parse_from_bytes (0x00 :: t % 256 :: t / 256 :: rest) = _
    simp only [PingResult.parse_from_bytes]
    rw [Nat.mod_add_div t 256]
  | Timeout => rfl
  | Error => rfl

/-- C3: decoding the byte encoding of any outcome whose RTT (for
`Success`) is strictly below 65,536 ms yields the outcome back, consuming
exactly the encoding. -/
theorem c3_ping_outcome_roundtrip (o : PingResult)
    (h : ∀ t, o = PingResult.Success t → t < 65536) :
    PingResult.parse_from_bytes o.serialize_into = some ([], o) := by
  have := parse_serialize_ping o h []
  simpa using this

theorem c3_ping_outcome_roundtrip_witness :
    PingResult.parse_from_bytes (PingResult.Success 12).serialize_into
      = some ([], PingResult.Success 12) :=
  c3_ping_outcome_roundtrip (PingResult.Success 12)
    (fun t ht => by injection ht with h1; omega)

/-- C4 counterexample: the encoder does not saturate.  Encoding a
`Success` outcome with RTT 65,536 ms writes the two-byte field as
`0x0000` (the low 16 bits), not `0xFFFF`. -/
theorem c4_counterexample :
    (PingResult.Success 65536).serialize_into ≠ [0x00, 0xFF, 0xFF] ∧
    (PingResult.Success 65536).serialize_into = [0x00, 0x00, 0x00] := by
  constructor
  · decide
  · decide

/-- C4 (amended): for RTT at least 65,536 ms the encoder writes the low
16 bits of the RTT (RTT mod 65536) as the two-byte little-endian field, a
truncation rather than a saturation; decoding the encoding therefore
yields `Success (rtt % 65536)`. -/
theorem c4_rtt_truncated (t : Nat) (_h : 65536 ≤ t) :
    (PingResult.Success t).serialize_into
        = [0x00, t % 65536 % 256, t % 65536 / 256] ∧
    PingResult.parse_from_bytes (PingResult.Success t).serialize_into
        = some ([], PingResult.Success (t % 65536)) := by
  refine ⟨rfl, ?_⟩
  show PingResult.parse_from_bytes (0x00 :: t % 65536 % 256 :: t % 65536 / 256 :: []) = _
  simp only [PingResult.parse_from_bytes]
  rw [Nat.mod_add_div (t % 65536) 256]

theorem c4_rtt_truncated_witness :
    (PingResult.Success 65536).serialize_into = [0x00, 0, 0] ∧
    PingResult.parse_from_bytes (PingResult.Success 65536).serialize_into
        = some ([], PingResult.Success 0) := by
  have := c4_rtt_truncated 65536 (by decide)
  simpa using this

/-- Combinator mirroring nom `count(p, n)`: run the parser `p` exactly `n`
times in sequence, collecting the results; fail if any run fails. -/
def parse_count {α : Type} (p : List Nat → Option (List Nat × α)) :
    Nat → List Nat → Option (List Nat × List α)
  | 0, input => some (input, [])
  | n + 1, input =>
    match p input with
    | none => none
    | some (rest, x) =>
      match parse_count p n rest with
      | none => none
      | some (rest2, xs) => some (rest2, x :: xs)

/-- Parser for one present /24 record body (`parse_slash_24`,
src/ping-worker/src/file.rs): 256 consecutive outcome encodings in
ascending 4th-octet order. -/
def parse_slash_24 (input : List Nat) : Option (List Nat × List PingResult) :=
  parse_count PingResult.parse_from_bytes 256 input

/-- Parser for one optional /24 record (`parse_optional_slash_24`):
tag `0x00` decodes to an absent /24, tag `0x01` is followed by a /24
body; any other tag fails. -/
def parse_optional_slash_24 (input : List Nat) :
    Option (List Nat × Option (List PingResult)) :=
  match input with
  | 0x00 :: rest => some (rest, none)
  | 0x01 :: rest =>
    match parse_slash_24 rest with
    | none => none
    | some (rest2, s24) => some (rest2, some s24)
  | _ => none

/-- Parser for a whole /16 stream (`parse_slash_16`): 256 optional /24
records in ascending 3rd-octet order. -/
def parse_slash_16 (input : List Nat) :
    Option (List Nat × List (Option (List PingResult))) :=
  parse_count parse_optional_slash_24 256 input

/-- Byte encoding of one optional /24 record, as written by the
serialization loop of `save_slash_16`: `0x00` for an absent /24, `0x01`
followed by the 256 outcome encodings for a present one. -/
def serialize_optional_slash_24 : Option (List PingResult) → List Nat
  | none => [0x00]
  | some s24 => 0x01 :: s24.flatMap PingResult.serialize_into

/-- Byte encoding of a whole `Slash16Result`, as written by
`save_slash_16` before compression: 256 optional /24 records in
ascending 3rd-octet order. -/
def serialize_slash_16 (results : List (Option (List PingResult))) : List Nat :=
  results.flatMap serialize_optional_slash_24

/-- Structural well-formedness of a `Slash16Result` value, as imposed by
the Rust types: 256 entries (the fixed array), each present /24 holding
exactly 256 outcomes whose RTTs fit in a u16. -/
def Slash16Wf (r : List (Option (List PingResult))) : Prop :=
  r.length = 256 ∧
    ∀ s24 ∈ r, ∀ row, s24 = some row →
      row.length = 256 ∧ ∀ o ∈ row, ∀ t, o = PingResult.Success t → t < 65536

theorem parse_count_bind {α : Type} (p : List Nat → Option (List Nat × α))
    (enc : α → List Nat) (l : List α)
    (H : ∀ x ∈ l, ∀ rest, p (enc x ++ rest) = some (rest, x)) (rest : List Nat) :
    parse_count p l.length (l.flatMap enc ++ rest) = some (rest, l) := by
  induction l with
  | nil => rfl
  | cons x xs ih =>
    have hx := H x (List.mem_cons_self x xs) (xs.flatMap enc ++ rest)
    have hxs : ∀ y ∈ xs, ∀ r, p (enc y ++ r) = some (r, y) :=
      fun y hy => H y (List.mem_cons_of_mem x hy)
    simp only [List.length_cons, List.flatMap_cons, List.append_assoc, parse_count, hx,
      ih hxs]

theorem parse_serialize_optional_slash_24 (s24 : Option (List PingResult))
    (hlen : ∀ row, s24 = some row → row.length = 256)
    (hrtt : ∀ row, s24 = some row →
      ∀ o ∈ row, ∀ t, o = PingResult.Success t → t < 65536)
    (rest : List Nat) :
    parse_optional_slash_24 (serialize_optional_slash_24 s24 ++ rest)
      = some (rest, s24) := by
  cases s24 with
  | none => rfl
  | some row =>
    have hl : row.length = 256 := hlen row rfl
    have hp : parse_slash_24 (row.flatMap PingResult.serialize_into ++ rest)
        = some (rest, row) := by
      have := parse_count_bind PingResult.parse_from_bytes
        PingResult.serialize_into row
        (fun o ho r => parse_serialize_ping o (hrtt row rfl o ho) r) rest
      rw [hl] at this
      exact this
    simp only [serialize_optional_slash_24, List.cons_append, parse_optional_slash_24, hp]

/-- C1: encoding any well-formed `Slash16Result` to the /16 file byte
format and decoding those bytes yields the identical structure, with the
decoder consuming the byte stream exactly to its end. -/
theorem c1_slash16_roundtrip (r : List (Option (List PingResult)))
    (h : Slash16Wf r) :
    parse_slash_16 (serialize_slash_16 r) = some ([], r) := by
  obtain ⟨hlen, hwf⟩ := h
  have := parse_count_bind parse_optional_slash_24 serialize_optional_slash_24 r
    (fun s24 hs rest => parse_serialize_optional_slash_24 s24
      (fun row hrow => (hwf s24 hs row hrow).1)
      (fun row hrow => (hwf s24 hs row hrow).2) rest) []
  rw [hlen] at this
  simpa [parse_slash_16, serialize_slash_16] using this

set_option maxRecDepth 10000 in
theorem c1_slash16_roundtrip_witness :
    parse_slash_16 (serialize_slash_16
        (some (List.replicate 256 (PingResult.Success 12)) ::
          List.replicate 255 (none : Option (List PingResult))))
      = some ([], some (List.replicate 256 (PingResult.Success 12)) ::
          List.replicate 255 (none : Option (List PingResult))) := by
  apply c1_slash16_roundtrip
  constructor
  · simp
  · intro s24 hs row hrow
    constructor
    · rcases List.mem_cons.mp hs with h | h
      · rw [h] at hrow
        injection hrow with h2
        rw [← h2]
        simp
      · exact absurd (List.eq_of_mem_replicate h ▸ hrow) (by simp)
    · intro o ho t hto
      rcases List.mem_cons.mp hs with h | h
      · rw [h] at hrow
        injection hrow with h2
        rw [← h2] at ho
        have := List.eq_of_mem_replicate ho
        rw [this] at hto
        injection hto with h3
        omega
      · exact absurd (List.eq_of_mem_replicate h ▸ hrow) (by simp)

/-- Subnet mask family (enum `SubnetMask`, src/ping-worker/src/subnet.rs;
the `SubnetClass` family `All, A, B, C, D` of src/src/subnet.rs is the
same type under historical names). -/
inductive SubnetMask where
  | Slash0
  | Slash8
  | Slash16
  | Slash24
  | Slash32
deriving DecidableEq, Repr

/-- Aggregated counts of a subnet result (struct `Analysis`,
src/src/stats.rs). -/
structure Analysis where
  mask : SubnetMask
  alive : Nat
  timed_out : Nat
  errored : Nat
deriving DecidableEq, Repr

/-- Constructor `Analysis::new`: all counters start at zero. -/
def Analysis.new (mask : SubnetMask) : Analysis :=
  { mask := mask, alive := 0, timed_out := 0, errored := 0 }

/-- Reducer `Analysis::of_slash_16` (src/src/stats.rs, lines 103 to 122):
walks the 256 optional /24 entries in order; an absent entry adds 256 to
`errored` and a present entry tallies each outcome into the matching
counter. -/
def Analysis.of_slash_16 (results : List (Option (List PingResult))) : Analysis :=
  results.foldl
    (fun anal s24 =>
      match s24 with
      | none => { anal with errored := anal.errored + 256 }
      | some row =>
        row.foldl
          (fun anal o =>
            match o with
            | .Success _ => { anal with alive := anal.alive + 1 }
            | .Timeout => { anal with timed_out := anal.timed_out + 1 }
            | .Error => { anal with errored := anal.errored + 1 })
          anal)
    (Analysis.new .Slash16)

set_option maxRecDepth 10000 in
/-- C2 (evaluation at the failing input): on a `Slash16Result` whose 256
entries are all absent, the reducer reports zero timed-out outcomes and
65,536 errored outcomes, because `of_slash_16` adds each absent /24 to the
`errored` counter instead of the `timed_out` counter. -/
theorem c2_absent_slash24_counted_as_errored :
    (Analysis.of_slash_16 (List.replicate 256 none)).timed_out = 0 ∧
    (Analysis.of_slash_16 (List.replicate 256 none)).errored = 65536 ∧
    (Analysis.of_slash_16 (List.replicate 256 none)).alive = 0 := by
  refine ⟨?_, ?_, ?_⟩ <;> decide

/-- Result of `read_slash_16` as observable to its caller: `ok` carries
the `Result::Ok` payload (an optional `Slash16Result`); `panicked` marks
the `assert_eq!(input.len(), 0)` failure on trailing bytes. -/
inductive ReadResult where
  | ok (r : Option (List (Option (List PingResult))))
  | panicked
deriving DecidableEq

/-- Read path of `read_slash_16` (src/ping-worker/src/file.rs, lines 66
to 97), with the filesystem modelled as the optional inflated contents of
`./data/a/b` (the zlib layer is a lossless external codec).  A missing
path returns `Ok(None)`; a parse failure also returns `Ok(None)`; a parse
that leaves trailing bytes trips the assert; otherwise the decoded
structure is returned. -/
def read_slash_16 (file : Option (List Nat)) : ReadResult :=
  match file with
  | none => .ok none
  | some data =>
    match parse_slash_16 data with
    | none => .ok none
    | some (rest, r) => if rest = [] then .ok (some r) else .panicked

/-- C5 counterexample: a file that exists but fails to decode is reported
exactly like a missing file.  For the one-byte contents `0x05` (an
invalid record tag) the read returns `Ok(None)`, the same value returned
when the path does not exist, so no `Corrupt` result distinct from
`NotFound` is produced. -/
theorem c5_counterexample :
    read_slash_16 (some [0x05]) = ReadResult.ok none ∧
    read_slash_16 none = ReadResult.ok none ∧
    read_slash_16 (some [0x05]) = read_slash_16 none := by
  refine ⟨?_, ?_, ?_⟩ <;> decide

/-- C5 (amended): the read operation returns `Ok(None)` when the path
does not exist, and also returns `Ok(None)` when the file exists but its
decoded contents fail to parse (corrupt files are indistinguishable from
missing ones); when the contents parse to completion it returns
`Ok(Some(Slash16Result))`. -/
theorem c5_read_semantics :
    read_slash_16 none = ReadResult.ok none ∧
    (∀ d, parse_slash_16 d = none → read_slash_16 (some d) = ReadResult.ok none) ∧
    (∀ d r, parse_slash_16 d = some ([], r) →
      read_slash_16 (some d) = ReadResult.ok (some r)) := by
  refine ⟨rfl, ?_, ?_⟩
  · intro d hd
    simp [read_slash_16, hd]
  · intro d r hd
    simp [read_slash_16, hd]

set_option maxRecDepth 10000 in
theorem c5_read_semantics_witness :
    read_slash_16 none = ReadResult.ok none ∧
    read_slash_16 (some [0x07]) = ReadResult.ok none ∧
    read_slash_16 (some (List.replicate 256 0x00))
      = ReadResult.ok (some (List.replicate 256 none)) :=
  ⟨c5_read_semantics.1,
   c5_read_semantics.2.1 [0x07] (by decide),
   c5_read_semantics.2.2 (List.replicate 256 0x00) (List.replicate 256 none)
     (by decide)⟩

/-- An IPv4 address as its four octets, indexed as `octets()[0..=3]`. -/
structure Ipv4Addr where
  o0 : Nat
  o1 : Nat
  o2 : Nat
  o3 : Nat
deriving DecidableEq, Repr

/-- The 256 /32 base addresses of the /24 subnet `a.b.c.x` as yielded by
its `iter_subnets()` cursor: the 4th octet ascends 0..=255. -/
def slash24_addresses (a b c : Nat) : List Ipv4Addr :=
  (List.range 256).map fun d => ⟨a, b, c, d⟩

/-- The interleaved /32 probe order of `ping_slash_16`
(src/src/main.rs, lines 113 to 127): one cursor per /24 is created in
ascending 3rd-octet order, then for each of 256 outer rounds each cursor
in turn is advanced by one address, so round `r` takes the address with
4th octet `r` from every cursor. -/
def probe_targets (a b : Nat) : List Ipv4Addr :=
  (List.range 256).flatMap fun r =>
    (List.range 256).map fun c => (slash24_addresses a b c).getD r ⟨0, 0, 0, 0⟩

theorem length_flatMap_uniform {α β : Type} (l : List β) (g : β → List α)
    (m : Nat) (hm : ∀ x ∈ l, (g x).length = m) :
    (l.flatMap g).length = l.length * m := by
  induction l with
  | nil => simp
  | cons x xs ih =>
    have hx := hm x (List.mem_cons_self x xs)
    have hxs := ih fun y hy => hm y (List.mem_cons_of_mem x hy)
    simp [List.flatMap_cons, hx, hxs, Nat.succ_mul, Nat.add_comm]

theorem getD_flatMap_uniform {α β : Type} (l : List β) (g : β → List α)
    (m : Nat) (hm : ∀ x ∈ l, (g x).length = m) (i s : Nat) (hi : i < l.length)
    (hs : s < m) (d : α) (db : β) :
    (l.flatMap g).getD (i * m + s) d = (g (l.getD i db)).getD s d := by
  induction l generalizing i with
  | nil => simp at hi
  | cons x xs ih =>
    cases i with
    | zero =>
      have hx : s < (g x).length := by
        rw [hm x (List.mem_cons_self x xs)]; exact hs
      simpa [List.flatMap_cons] using List.getD_append (g x) (xs.flatMap g) d s hx
    | succ j =>
      have hj : j < xs.length := by simpa using hi
      have hlen : (g x).length ≤ (j + 1) * m + s := by
        rw [hm x (List.mem_cons_self x xs), Nat.succ_mul]
        omega
      have := List.getD_append_right (g x) (xs.flatMap g) d ((j + 1) * m + s) hlen
      rw [List.flatMap_cons, this, hm x (List.mem_cons_self x xs)]
      have harith : (j + 1) * m + s - m = j * m + s := by
        rw [Nat.succ_mul]; omega
      rw [harith]
      exact ih (fun y hy => hm y (List.mem_cons_of_mem x hy)) j hj

theorem getD_range_map {α : Type} (f : Nat → α) (n i : Nat) (hi : i < n) (d : α) :
    ((List.range n).map f).getD i d = f i := by
  have hlen : i < ((List.range n).map f).length := by simpa using hi
  rw [List.getD_eq_getElem _ _ hlen]
  simp

theorem getD_range (n i : Nat) (hi : i < n) (d : Nat) :
    (List.range n).getD i d = i := by
  have hlen : i < (List.range n).length := by simpa using hi
  rw [List.getD_eq_getElem _ _ hlen]
  simp

theorem slash24_addresses_getD (a b c r : Nat) (hr : r < 256) (d : Ipv4Addr) :
    (slash24_addresses a b c).getD r d = ⟨a, b, c, r⟩ :=
  getD_range_map _ 256 r hr d

theorem probe_targets_getD (a b r s : Nat) (hr : r < 256) (hs : s < 256)
    (d : Ipv4Addr) :
    (probe_targets a b).getD (r * 256 + s) d = ⟨a, b, s, r⟩ := by
  have hm : ∀ x ∈ List.range 256,
      ((List.range 256).map fun c =>
        (slash24_addresses a b c).getD x ⟨0, 0, 0, 0⟩).length = 256 := by
    intro x _; simp
  have := getD_flatMap_uniform (List.range 256)
    (fun r => (List.range 256).map fun c =>
      (slash24_addresses a b c).getD r ⟨0, 0, 0, 0⟩)
    256 hm r s (by simpa using hr) hs d 0
  rw [probe_targets, this, getD_range 256 r hr 0, getD_range_map _ 256 s hs d,
    slash24_addresses_getD a b s r hr]

theorem probe_targets_length (a b : Nat) : (probe_targets a b).length = 65536 := by
  have hm : ∀ x ∈ List.range 256,
      ((List.range 256).map fun c =>
        (slash24_addresses a b c).getD x ⟨0, 0, 0, 0⟩).length = 256 := by
    intro x _; simp
  rw [probe_targets, length_flatMap_uniform _ _ 256 hm]
  simp

/-- C6: the 65,536 /32 targets of a /16 are issued interleaved: the probe
at 0-based position `r * 256 + s` targets the address with 3rd octet `s`
and 4th octet `r`; in particular probe `k` for `k < 256` targets
`(octet3 = k, octet4 = 0)` and probe 256 (the 257th) targets
`(octet3 = 0, octet4 = 1)`. -/
theorem c6_interleaved_probe_order (a b : Nat) :
    (probe_targets a b).length = 65536 ∧
    (∀ r s : Nat, r < 256 → s < 256 →
      (probe_targets a b).getD (r * 256 + s) ⟨0, 0, 0, 0⟩ = ⟨a, b, s, r⟩) ∧
    (∀ k : Nat, k < 256 →
      (probe_targets a b).getD k ⟨0, 0, 0, 0⟩ = ⟨a, b, k, 0⟩) ∧
    (probe_targets a b).getD 256 ⟨0, 0, 0, 0⟩ = ⟨a, b, 0, 1⟩ := by
  refine ⟨probe_targets_length a b,
    fun r s hr hs => probe_targets_getD a b r s hr hs _, ?_, ?_⟩
  · intro k hk
    have := probe_targets_getD a b 0 k (by omega) hk ⟨0, 0, 0, 0⟩
    simpa using this
  · have := probe_targets_getD a b 1 0 (by omega) (by omega) ⟨0, 0, 0, 0⟩
    simpa using this

theorem c6_interleaved_probe_order_witness :
    (probe_targets 198 51).getD (3 * 256 + 7) ⟨0, 0, 0, 0⟩ = ⟨198, 51, 7, 3⟩ :=
  (c6_interleaved_probe_order 198 51).2.1 3 7 (by decide) (by decide)

/-- Outcomes in probe-issue order: `join_all` resolves the futures in the
order `ping_slash_16` pushed them, so `ping_results[k]` is the outcome of
pinging `probe_targets[k]`.  The per-address behaviour is abstracted as a
function `f` from address to outcome. -/
def ping_results_model (a b : Nat) (f : Ipv4Addr → PingResult) : List PingResult :=
  (probe_targets a b).map f

/-- Regrouping loop of `ping_slash_16` (src/src/main.rs, lines 129 to
151): entry `c` collects `ping_results[v * 256 + c]` for `v` in 0..=255
(4th-octet order); if any collected outcome differs from `Timeout` the
entry is `Some` of the 256 outcomes, else `None`. -/
def build_slash16 (ping_results : List PingResult) :
    List (Option (List PingResult)) :=
  (List.range 256).map fun c =>
    let row := (List.range 256).map fun v =>
      ping_results.getD (v * 256 + c) PingResult.Error
    if row.any fun o => decide (o ≠ PingResult.Timeout) then some row else none

theorem probe_targets_getElem? (a b r s : Nat) (hr : r < 256) (hs : s < 256) :
    (probe_targets a b)[r * 256 + s]? = some ⟨a, b, s, r⟩ := by
  have hidx : r * 256 + s < (probe_targets a b).length := by
    rw [probe_targets_length]; omega
  have h1 := probe_targets_getD a b r s hr hs ⟨0, 0, 0, 0⟩
  rw [List.getD_eq_getElem?_getD, List.getElem?_eq_getElem hidx] at h1
  simp only [Option.getD_some] at h1
  rw [List.getElem?_eq_getElem hidx, h1]

theorem build_row_eq (a b : Nat) (f : Ipv4Addr → PingResult) (c : Nat)
    (hc : c < 256) :
    ((List.range 256).map fun v =>
        (ping_results_model a b f).getD (v * 256 + c) PingResult.Error)
      = (List.range 256).map fun v => f ⟨a, b, c, v⟩ := by
  apply List.map_congr_left
  intro v hv
  have hv256 : v < 256 := List.mem_range.mp hv
  rw [ping_results_model, List.getD_eq_getElem?_getD, List.getElem?_map,
    probe_targets_getElem? a b v c hv256 hc]
  rfl

/-- C7: after all probes resolve, entry `c` of the constructed
`Slash16Result` is `None` when all 256 outcomes for 3rd octet `c` are
`Timeout`, and otherwise is `Some` of exactly those 256 outcomes indexed
by 4th octet, regrouped from the interleaved issue order. -/
theorem c7_slash16_aggregation (a b : Nat) (f : Ipv4Addr → PingResult)
    (c : Nat) (hc : c < 256) :
    ((∀ d, d < 256 → f ⟨a, b, c, d⟩ = PingResult.Timeout) →
      (build_slash16 (ping_results_model a b f)).getD c none = none) ∧
    ((∃ d, d < 256 ∧ f ⟨a, b, c, d⟩ ≠ PingResult.Timeout) →
      (build_slash16 (ping_results_model a b f)).getD c none
        = some ((List.range 256).map fun d => f ⟨a, b, c, d⟩)) := by
  have hentry : (build_slash16 (ping_results_model a b f)).getD c none
      = (let row := (List.range 256).map fun v =>
          (ping_results_model a b f).getD (v * 256 + c) PingResult.Error
        if row.any fun o => decide (o ≠ PingResult.Timeout) then some row
        else none) :=
    getD_range_map _ 256 c hc none
  rw [hentry]
  simp only [build_row_eq a b f c hc]
  constructor
  · intro hall
    have hany : ((List.range 256).map fun v => f ⟨a, b, c, v⟩).any
        (fun o => decide (o ≠ PingResult.Timeout)) = false := by
      rw [List.any_eq_false]
      intro o ho
      obtain ⟨v, hv, rfl⟩ := List.mem_map.mp ho
      have := hall v (List.mem_range.mp hv)
      simp [this]
    simp [hany]
    exact hall
  · intro ⟨d, hd, hne⟩
    have hany : ((List.range 256).map fun v => f ⟨a, b, c, v⟩).any
        (fun o => decide (o ≠ PingResult.Timeout)) = true := by
      rw [List.any_eq_true]
      exact ⟨f ⟨a, b, c, d⟩,
        List.mem_map.mpr ⟨d, List.mem_range.mpr hd, rfl⟩, by simpa using hne⟩
    simp [hany]
    exact ⟨d, hd, hne⟩

theorem c7_slash16_aggregation_witness :
    ((build_slash16 (ping_results_model 9 9
        (fun _ => PingResult.Timeout))).getD 5 none = none) ∧
    ((build_slash16 (ping_results_model 9 9
        (fun ip => if ip.o3 = 0 then PingResult.Success 3 else
          PingResult.Timeout))).getD 7 none
      = some ((List.range 256).map fun d =>
          if d = 0 then PingResult.Success 3 else PingResult.Timeout)) := by
  constructor
  · exact (c7_slash16_aggregation 9 9 (fun _ => PingResult.Timeout) 5
      (by decide)).1 (fun d hd => rfl)
  · have := (c7_slash16_aggregation 9 9
      (fun ip => if ip.o3 = 0 then PingResult.Success 3 else PingResult.Timeout)
      7 (by decide)).2 ⟨0, by decide, by decide⟩
    simpa using this

/-- The per /16 progress states (enum `Slash16State`, src/src/gui.rs). -/
inductive Slash16State where
  | Skipped
  | Scheduled
  | Pending
  | Completed
deriving DecidableEq, Repr

/-- The kind of stdout row the planner emits for one /16: the centred
"Skipped" row or the stats row with counts. -/
inductive RowKind where
  | skippedRow
  | statsRow
deriving DecidableEq, Repr

/-- Observable effects of one `ping_slash_16` call: the returned optional
result, whether the 65,536 probe futures were created and awaited, and
the bytes written to `./data/a/b` (if any). -/
structure PingSlash16Run where
  result : Option (List (Option (List PingResult)))
  probed : Bool
  wrote : Option (List Nat)
deriving DecidableEq, Repr

/-- Model of `ping_slash_16` (src/src/main.rs, lines 101 to 152): if
reading the result file yields `Some`, return `None` at once, probing
nothing and writing nothing; otherwise probe every address in interleaved
order, regroup, save the serialized result and return `Some` of it.  The
outer `Option` is `none` when the read panics on trailing bytes (the
`unwrap`ped assert). -/
def ping_slash_16_model (file : Option (List Nat)) (a b : Nat)
    (f : Ipv4Addr → PingResult) : Option PingSlash16Run :=
  match read_slash_16 file with
  | .panicked => none
  | .ok (some _) => some { result := none, probed := false, wrote := none }
  | .ok none =>
    let results := build_slash16 (ping_results_model a b f)
    some { result := some results, probed := true,
           wrote := some (serialize_slash_16 results) }

/-- One planner iteration of `pinger_main` (src/src/main.rs, lines 56 to
94) for the /16 `a.b.x.x`: run `ping_slash_16`; on `Some` print the stats
row and mark `Completed`, on `None` print the "Skipped" row and mark
`Skipped`. -/
def planner_step (file : Option (List Nat)) (a b : Nat)
    (f : Ipv4Addr → PingResult) :
    Option (Slash16State × RowKind × PingSlash16Run) :=
  match ping_slash_16_model file a b f with
  | none => none
  | some run =>
    match run.result with
    | some _ => some (.Completed, .statsRow, run)
    | none => some (.Skipped, .skippedRow, run)

/-- C8: whenever reading the result file of a /16 yields `Some`, the
planner marks the /16 `Skipped`, emits the skipped row, probes none of
its addresses and writes no file; and a /16 is skipped only when its
result file is present, so the file at `./data/a/b` is the sole
checkpoint consulted. -/
theorem c8_planner_skips_persisted (file : Option (List Nat)) (a b : Nat)
    (f : Ipv4Addr → PingResult) :
    (∀ r, read_slash_16 file = ReadResult.ok (some r) →
      planner_step file a b f = some (.Skipped, .skippedRow,
        { result := none, probed := false, wrote := none })) ∧
    (∀ st row run, planner_step file a b f = some (st, row, run) →
      st = Slash16State.Skipped → ∃ d, file = some d) := by
  constructor
  · intro r hread
    simp [planner_step, ping_slash_16_model, hread]
  · intro st row run hstep hskip
    cases file with
    | some d => exact ⟨d, rfl⟩
    | none =>
      exfalso
      have hread : read_slash_16 none = ReadResult.ok none := rfl
      rw [hskip] at hstep
      simp [planner_step, ping_slash_16_model, hread] at hstep

set_option maxRecDepth 10000 in
theorem c8_planner_skips_persisted_witness :
    planner_step (some (List.replicate 256 0x00)) 1 0
        (fun _ => PingResult.Timeout)
      = some (Slash16State.Skipped, RowKind.skippedRow,
        { result := none, probed := false, wrote := none }) :=
  (c8_planner_skips_persisted (some (List.replicate 256 0x00)) 1 0
      (fun _ => PingResult.Timeout)).1
    (List.replicate 256 none) (by decide)

/-- Outcome of one send/await attempt inside `ping`
(src/ping-worker/src/ping.rs): the transport returned a reply with an
RTT, returned no reply within the 3500 ms budget, or itself errored. -/
inductive AttemptOutcome where
  | reply (rtt_ms : Nat)
  | noReply
  | transportError
deriving DecidableEq, Repr

/-- The retry limit constant `RETRY_LIMIT` of `ping`. -/
def RETRY_LIMIT : Nat := 2

/-- The retry loop `for retry_counter in 1..=limit` of `ping`
(src/ping-worker/src/ping.rs, lines 100 to 135), with the attempt
behaviour abstracted as a function from the attempt counter to its
outcome.  `k` is the current counter, `n` the remaining iterations.  A
reply yields `Success`, no reply yields `Timeout`; a transport error
continues with the next counter (after a random sleep, not modelled)
while `k < limit` and yields `Error` on the final attempt.  Falling out
of the loop is the `unreachable!()` panic, modelled as `none`. -/
def ping_loop (attempts : Nat → AttemptOutcome) (limit : Nat) :
    Nat → Nat → Option PingResult
  | _, 0 => none
  | k, n + 1 =>
    match attempts k with
    | .reply t => some (.Success t)
    | .noReply => some .Timeout
    | .transportError =>
      if k < limit then ping_loop attempts limit (k + 1) n else some .Error

/-- The outcome of one whole probe of one address: run the retry loop
from counter 1 with `limit` iterations available. -/
def ping_model (attempts : Nat → AttemptOutcome) (limit : Nat) :
    Option PingResult :=
  ping_loop attempts limit 1 limit

theorem ping_loop_decisive (attempts : Nat → AttemptOutcome) (limit k : Nat)
    (hkl : k ≤ limit) :
    ∀ n s, s ≤ k → k < s + n →
    (∀ j, s ≤ j → j < k → attempts j = .transportError) →
    (∀ t, attempts k = .reply t →
      ping_loop attempts limit s n = some (.Success t)) ∧
    (attempts k = .noReply → ping_loop attempts limit s n = some .Timeout) := by
  intro n
  induction n with
  | zero => intro s hs hk _; omega
  | succ m ih =>
    intro s hs hk herr
    rcases Nat.eq_or_lt_of_le hs with rfl | hlt
    · constructor
      · intro t ht
        simp [ping_loop, ht]
      · intro ht
        simp [ping_loop, ht]
    · have hse : attempts s = .transportError := herr s (Nat.le_refl s) hlt
      have hsl : s < limit := by omega
      have := ih (s + 1) hlt (by omega)
        (fun j hj1 hj2 => herr j (by omega) hj2)
      constructor
      · intro t ht
        simp [ping_loop, hse, hsl]
        exact (this.1 t ht)
      · intro ht
        simp [ping_loop, hse, hsl]
        exact this.2 ht

theorem ping_loop_all_errors (attempts : Nat → AttemptOutcome) (limit : Nat) :
    ∀ n s, s + n = limit + 1 → 1 ≤ s → s ≤ limit →
    (∀ j, s ≤ j → j ≤ limit → attempts j = .transportError) →
    ping_loop attempts limit s n = some .Error := by
  intro n
  induction n with
  | zero => intro s h1 _ h3 _; omega
  | succ m ih =>
    intro s h1 h2 h3 herr
    have hse : attempts s = .transportError := herr s (Nat.le_refl s) h3
    rcases Nat.eq_or_lt_of_le h3 with rfl | hlt
    · simp [ping_loop, hse]
    · have := ih (s + 1) (by omega) (by omega) (by omega)
        (fun j hj1 hj2 => herr j (by omega) hj2)
      simp [ping_loop, hse, hlt]
      exact this

/-- C9: within one probe, the first attempt whose outcome is a reply or
a timeout decides the probe (`Success(rtt)` or `Timeout`), regardless of
later attempts; only transport errors are retried; and if every attempt
up to the retry limit is a transport error the probe yields `Error`.
The source retry limit is 2. -/
theorem c9_retry_only_transport_errors (attempts : Nat → AttemptOutcome)
    (limit k t : Nat) (hk1 : 1 ≤ k) (hkl : k ≤ limit)
    (herr : ∀ j, 1 ≤ j → j < k → attempts j = .transportError) :
    RETRY_LIMIT = 2 ∧
    (attempts k = .reply t → ping_model attempts limit = some (.Success t)) ∧
    (attempts k = .noReply → ping_model attempts limit = some .Timeout) ∧
    ((∀ j, 1 ≤ j → j ≤ limit → attempts j = .transportError) →
      ping_model attempts limit = some .Error) := by
  have hdec := ping_loop_decisive attempts limit k hkl limit 1 hk1 (by omega) herr
  refine ⟨rfl, fun ht => hdec.1 t ht, fun ht => hdec.2 ht, fun hall => ?_⟩
  exact ping_loop_all_errors attempts limit limit 1 (by omega) (by omega)
    (by omega) hall

theorem c9_retry_only_transport_errors_witness :
    ping_model (fun j => if j = 1 then AttemptOutcome.transportError
      else AttemptOutcome.noReply) RETRY_LIMIT = some PingResult.Timeout :=
  (c9_retry_only_transport_errors
      (fun j => if j = 1 then AttemptOutcome.transportError
        else AttemptOutcome.noReply)
      RETRY_LIMIT 2 0 (by decide) (by decide)
      (fun j hj1 hj2 => by
        have hj : j = 1 := by omega
        rw [hj]
        rfl)).2.2.1 (by decide)

/-- Big-endian numeric value of an address, as in
`u32::from_be_bytes(addr.octets())`. -/
def ipv4_to_u32 (ip : Ipv4Addr) : Nat :=
  ip.o0 * 2 ^ 24 + ip.o1 * 2 ^ 16 + ip.o2 * 2 ^ 8 + ip.o3

/-- Address from a numeric value, as in `u32::to_be_bytes`. -/
def u32_to_ipv4 (n : Nat) : Ipv4Addr :=
  ⟨n / 2 ^ 24 % 256, n / 2 ^ 16 % 256, n / 2 ^ 8 % 256, n % 256⟩

/-- A subnet: a base address and a mask.  The source carries two
isomorphic mask families; `SubnetClass` values `All, A, B, C, D` of
src/src/subnet.rs are the masks `/0, /8, /16, /24, /32`. -/
structure Subnet where
  base_address : Ipv4Addr
  mask : SubnetMask
deriving DecidableEq, Repr

/-- The `power` computed by `Subnet::iter_addresses`: the number of host
bits, 32 minus the mask width. -/
def host_power : SubnetMask → Nat
  | .Slash0 => 32
  | .Slash8 => 24
  | .Slash16 => 16
  | .Slash24 => 8
  | .Slash32 => 0

/-- The mask width in bits: /0, /8, /16, /24 or /32. -/
def mask_number (m : SubnetMask) : Nat := 32 - host_power m

/-- Validity of a subnet value as enforced by `Subnet::new`: the octets
are bytes and every octet after the first `mask/8` octets is zero (the
`assert!` over `matches!` patterns). -/
def Subnet.wf (s : Subnet) : Bool :=
  decide (s.base_address.o0 < 256) && decide (s.base_address.o1 < 256) &&
  decide (s.base_address.o2 < 256) && decide (s.base_address.o3 < 256) &&
  (match s.mask with
   | .Slash0 => decide (s.base_address.o0 = 0) && decide (s.base_address.o1 = 0)
       && decide (s.base_address.o2 = 0) && decide (s.base_address.o3 = 0)
   | .Slash8 => decide (s.base_address.o1 = 0)
       && decide (s.base_address.o2 = 0) && decide (s.base_address.o3 = 0)
   | .Slash16 => decide (s.base_address.o2 = 0) && decide (s.base_address.o3 = 0)
   | .Slash24 => decide (s.base_address.o3 = 0)
   | .Slash32 => true)

/-- The address iterator `Subnet::iter_addresses` (src/src/subnet.rs,
lines 73 to 86): `start..=start + length - 1` mapped through
`to_be_bytes`, where `length = 2u32.pow(power)`.  The u32 arithmetic is
wrapping (release overflow semantics): for /0 the length wraps to 0 and
the inclusive end to `u32::MAX`, so the range still covers all 2^32
values. -/
def Subnet.iter_addresses (s : Subnet) : List Ipv4Addr :=
  let start := ipv4_to_u32 s.base_address
  let length := 2 ^ host_power s.mask % 2 ^ 32
  let last := (start + length + (2 ^ 32 - 1)) % 2 ^ 32
  (List.range' start (last + 1 - start)).map u32_to_ipv4

theorem ipv4_u32_roundtrip (m : Nat) (hm : m < 2 ^ 32) :
    ipv4_to_u32 (u32_to_ipv4 m) = m := by
  simp only [ipv4_to_u32, u32_to_ipv4]
  have h8 : (2 : Nat) ^ 8 = 256 := rfl
  have h16 : (2 : Nat) ^ 16 = 65536 := rfl
  have h24 : (2 : Nat) ^ 24 = 16777216 := rfl
  have h32 : (2 : Nat) ^ 32 = 4294967296 := rfl
  rw [h8, h16, h24] at *
  rw [h32] at hm
  omega

theorem u32_ipv4_roundtrip (ip : Ipv4Addr) (h0 : ip.o0 < 256)
    (h1 : ip.o1 < 256) (h2 : ip.o2 < 256) (h3 : ip.o3 < 256) :
    u32_to_ipv4 (ipv4_to_u32 ip) = ip := by
  obtain ⟨o0, o1, o2, o3⟩ := ip
  simp only [ipv4_to_u32, u32_to_ipv4] at *
  have h8 : (2 : Nat) ^ 8 = 256 := rfl
  have h16 : (2 : Nat) ^ 16 = 65536 := rfl
  have h24 : (2 : Nat) ^ 24 = 16777216 := rfl
  rw [h8, h16, h24]
  simp only [Ipv4Addr.mk.injEq]
  refine ⟨?_, ?_, ?_, ?_⟩ <;> omega

theorem range'_map_getD {α : Type} (g : Nat → α) (s n i : Nat) (hi : i < n)
    (d : α) :
    ((List.range' s n).map g).getD i d = g (s + i) := by
  have hlen : i < ((List.range' s n).map g).length := by simpa using hi
  rw [List.getD_eq_getElem _ _ hlen, List.getElem_map]
  congr 1
  exact List.getElem_range'_1 i (by simpa using hi)

theorem iter_addresses_eq (s : Subnet) (h : s.wf = true) :
    Subnet.iter_addresses s
        = (List.range' (ipv4_to_u32 s.base_address)
            (2 ^ host_power s.mask)).map u32_to_ipv4 ∧
    ipv4_to_u32 s.base_address + 2 ^ host_power s.mask ≤ 2 ^ 32 := by
  obtain ⟨⟨o0, o1, o2, o3⟩, mask⟩ := s
  have h8 : (2 : Nat) ^ 8 = 256 := rfl
  have h16 : (2 : Nat) ^ 16 = 65536 := rfl
  have h24 : (2 : Nat) ^ 24 = 16777216 := rfl
  have h32 : (2 : Nat) ^ 32 = 4294967296 := rfl
  cases mask <;>
    simp only [Subnet.wf, Bool.and_eq_true, decide_eq_true_eq] at h <;>
    simp only [Subnet.iter_addresses, ipv4_to_u32, host_power] <;>
    rw [h8, h16, h24, h32] <;>
    constructor <;>
    first
      | omega
      | (congr 2 <;> omega)

theorem host_power_eq (m : SubnetMask) : 32 - mask_number m = host_power m := by
  cases m <;> rfl

/-- C10: for every valid subnet, iterating its addresses yields exactly
2^(32 − mask) addresses, beginning at the base address, with numeric
(big-endian) values ascending by one from the base; in particular a /0
subnet yields all 2^32 addresses and a /32 subnet yields exactly its
base address. -/
theorem c10_iter_addresses_range (s : Subnet) (h : s.wf = true) :
    (Subnet.iter_addresses s).length = 2 ^ (32 - mask_number s.mask) ∧
    (Subnet.iter_addresses s).getD 0 ⟨0, 0, 0, 0⟩ = s.base_address ∧
    (∀ i, i < 2 ^ (32 - mask_number s.mask) →
      ipv4_to_u32 ((Subnet.iter_addresses s).getD i ⟨0, 0, 0, 0⟩)
        = ipv4_to_u32 s.base_address + i) := by
  obtain ⟨heq, hbound⟩ := iter_addresses_eq s h
  rw [host_power_eq]
  have hoct : s.base_address.o0 < 256 ∧ s.base_address.o1 < 256 ∧
      s.base_address.o2 < 256 ∧ s.base_address.o3 < 256 := by
    obtain ⟨⟨o0, o1, o2, o3⟩, mask⟩ := s
    cases mask <;>
      simp only [Subnet.wf, Bool.and_eq_true, decide_eq_true_eq] at h <;>
      exact ⟨h.1.1.1.1, h.1.1.1.2, h.1.1.2, h.1.2⟩
  have hpos : 0 < 2 ^ host_power s.mask := Nat.pos_pow_of_pos _ (by omega)
  refine ⟨?_, ?_, ?_⟩
  · rw [heq]
    simp
  · rw [heq, range'_map_getD u32_to_ipv4 _ _ 0 hpos, Nat.add_zero]
    exact u32_ipv4_roundtrip s.base_address hoct.1 hoct.2.1 hoct.2.2.1 hoct.2.2.2
  · intro i hi
    rw [heq, range'_map_getD u32_to_ipv4 _ _ i hi]
    exact ipv4_u32_roundtrip _ (by omega)

theorem c10_iter_addresses_range_witness :
    Subnet.wf ⟨⟨10, 0, 0, 0⟩, .Slash8⟩ = true ∧
    (Subnet.iter_addresses ⟨⟨10, 0, 0, 0⟩, .Slash8⟩).length
      = 2 ^ (32 - mask_number SubnetMask.Slash8) ∧
    (Subnet.iter_addresses ⟨⟨10, 0, 0, 0⟩, .Slash8⟩).getD 0 ⟨0, 0, 0, 0⟩
      = ⟨10, 0, 0, 0⟩ ∧
    ipv4_to_u32 ((Subnet.iter_addresses ⟨⟨10, 0, 0, 0⟩, .Slash8⟩).getD 5
        ⟨0, 0, 0, 0⟩)
      = ipv4_to_u32 ⟨10, 0, 0, 0⟩ + 5 :=
  ⟨by decide,
   (c10_iter_addresses_range ⟨⟨10, 0, 0, 0⟩, .Slash8⟩ (by decide)).1,
   (c10_iter_addresses_range ⟨⟨10, 0, 0, 0⟩, .Slash8⟩ (by decide)).2.1,
   (c10_iter_addresses_range ⟨⟨10, 0, 0, 0⟩, .Slash8⟩ (by decide)).2.2 5
     (by decide)⟩
